import Mathlib

/-!
Verification of the c3s_sm image/time-series conversion package against its
natural-language specification.  The definitions below are shallow embeddings
of the Python source files `c3s_sm/interface.py`, `c3s_sm/bitflags.py`,
`c3s_sm/reshuffle.py`, `c3s_sm/metadata.py`, `c3s_sm/misc.py` and
`c3s_sm/cli.py`.  Machine dates are modelled as Gregorian calendar triples,
numeric payloads as rationals plus an explicit NaN marker, and Python
exceptions as an explicit error type.
-/

deriving instance DecidableEq for Except

/-- Python exception kinds raised (or named by the specification) in the code
under study.  `malformedImageError` and `unknownVersionError` are the two
exception names used by the specification; no class of either name is defined
anywhere in the repository, so no execution of the embedded code can produce
them.  They are included as distinct values so that the claims of the
specification can be stated and compared with what the code raises. -/
inductive PyError where
  | ioError               -- IOError / OSError / FileNotFoundError
  | valueError            -- ValueError
  | assertionError        -- AssertionError
  | attributeError        -- AttributeError (failed getattr lookup)
  | keyError              -- KeyError (failed dict lookup)
  | notImplementedError   -- NotImplementedError
  | malformedImageError   -- named by the spec only; not defined in the code
  | unknownVersionError   -- named by the spec only; not defined in the code
deriving DecidableEq

/-- Gregorian calendar date, modelling the date part of a Python `datetime`.
The image products carry a constant midnight time of day, so time of day is
not modelled. -/
structure Date where
  year : Nat
  month : Nat
  day : Nat
deriving DecidableEq

/-- Gregorian leap year rule, as implemented by the Python `datetime` and
`dateutil` libraries. -/
def isLeapYear (y : Nat) : Bool :=
  (y % 4 == 0 && y % 100 != 0) || y % 400 == 0

/-- Number of days of a month in the Gregorian calendar. -/
def daysInMonth (y m : Nat) : Nat :=
  if m = 2 then (if isLeapYear y then 29 else 28)
  else if m = 4 ∨ m = 6 ∨ m = 9 ∨ m = 11 then 30
  else 31

/-- A structurally valid Gregorian date (every Python `datetime` satisfies
this). -/
def Date.Valid (d : Date) : Prop :=
  1 ≤ d.month ∧ d.month ≤ 12 ∧ 1 ≤ d.day ∧ d.day ≤ daysInMonth d.year d.month

instance (d : Date) : Decidable d.Valid := by
  unfold Date.Valid; infer_instance

/-- Strict comparison of dates, as performed by Python `datetime` comparison
(lexicographic on year, month, day). -/
def dlt (a b : Date) : Prop :=
  a.year < b.year ∨
    (a.year = b.year ∧ (a.month < b.month ∨ (a.month = b.month ∧ a.day < b.day)))

/-- Non-strict comparison of dates (`<=` on Python `datetime`). -/
def dle (a b : Date) : Prop := dlt a b ∨ a = b

instance (a b : Date) : Decidable (dlt a b) := by
  unfold dlt; infer_instance

instance (a b : Date) : Decidable (dle a b) := by
  unfold dle; infer_instance

/-- Moving one calendar day forward, the primitive out of which
`timedelta`-style day arithmetic is built. -/
def nextDay (d : Date) : Date :=
  if d.day < daysInMonth d.year d.month then ⟨d.year, d.month, d.day + 1⟩
  else if d.month < 12 then ⟨d.year, d.month + 1, 1⟩
  else ⟨d.year + 1, 1, 1⟩

/-- Python `date + relativedelta(days=n)` (equivalently `+ timedelta(n)`). -/
def addDays (n : Nat) (d : Date) : Date := nextDay^[n] d

/-- Python `date + relativedelta(months=1)`: the month is incremented (with
year rollover) and the day is clamped to the length of the target month. -/
def addOneMonth (d : Date) : Date :=
  if d.month < 12 then
    ⟨d.year, d.month + 1, min d.day (daysInMonth d.year (d.month + 1))⟩
  else ⟨d.year + 1, 1, min d.day 31⟩

/-- A rank function on dates, strictly monotone with respect to `dlt` on
valid dates; used as the termination bound for the timestamp loop. -/
def dateRank (d : Date) : Nat := 372 * d.year + 31 * (d.month - 1) + (d.day - 1)

/-- Loop body of `C3S_Nc_Img_Stack.tstamps_for_daterange` (interface.py lines
445 to 448): `timestamps = [start_date]` followed by `while
next(timestamps[-1]) <= end_date: timestamps.append(next(timestamps[-1]))`.
The returned list holds the elements appended after `last`.  The `fuel`
argument bounds the number of iterations; `tstampsGo_stable` below shows that
with the fuel used by `tstamps_for_daterange` the loop has reached its
fixpoint, so the bounded loop agrees with the unbounded Python loop. -/
def tstampsGo (nextf : Date → Date) (endD : Date) : Nat → Date → List Date
  | 0, _ => []
  | fuel + 1, last =>
    if dle (nextf last) endD then nextf last :: tstampsGo nextf endD fuel (nextf last)
    else []

/-- Embedding of `C3S_Nc_Img_Stack.tstamps_for_daterange` (interface.py lines
417 to 449).  `temp` is the frequency token parsed from the filename template
(field `temp`).  MONTHLY steps by `relativedelta(months=1)`, DAILY by
`relativedelta(days=1)` and DEKADAL by `relativedelta(days=10)`; any other
value raises `NotImplementedError`. -/
def tstamps_for_daterange (temp : String) (start_date end_date : Date) :
    Except PyError (List Date) :=
  if temp = "MONTHLY" then
    .ok (start_date :: tstampsGo addOneMonth end_date (dateRank end_date + 1) start_date)
  else if temp = "DAILY" then
    .ok (start_date :: tstampsGo (addDays 1) end_date (dateRank end_date + 1) start_date)
  else if temp = "DEKADAL" then
    .ok (start_date :: tstampsGo (addDays 10) end_date (dateRank end_date + 1) start_date)
  else .error .notImplementedError

/-- ASCII upper-casing of one character, as performed by Python `str.upper`
on the frequency tokens in use here. -/
def charUpper (c : Char) : Char :=
  if 97 ≤ c.toNat ∧ c.toNat ≤ 122 then Char.ofNat (c.toNat - 32) else c

/-- Python `freq.upper()`, modelled on the character list of the string. -/
def pyUpper (s : String) : List Char := s.data.map charUpper

/-- ASCII lower-casing of one character (Python `str.lower`). -/
def charLower (c : Char) : Char :=
  if 65 ≤ c.toNat ∧ c.toNat ≤ 90 then Char.ofNat (c.toNat + 32) else c

/-- Python `s.lower()`, modelled on the character list of the string. -/
def pyLower (s : String) : List Char := s.data.map charLower

/-- Embedding of the start-date computation of `extend_ts` (reshuffle.py lines
110 to 123): when no explicit start date is given, the next expected timestamp
after the recorded end date of the existing time series record is computed as
`enddate + relativedelta(days=1 | days=10 | months=1)` depending on
`freq.upper()`; an unexpected frequency raises `ValueError`. -/
def extend_ts_startdate (freq : String) (prev_enddate : Date) : Except PyError Date :=
  if pyUpper freq = "DAILY".data then .ok (addDays 1 prev_enddate)
  else if pyUpper freq = "DEKADAL".data then .ok (addDays 10 prev_enddate)
  else if pyUpper freq = "MONTHLY".data then .ok (addOneMonth prev_enddate)
  else .error .valueError

/-- Python `sep.join(parts)`, used when synthesizing combination flag
meanings and warning messages. -/
def pyJoin (sep : String) : List String → String
  | [] => ""
  | [x] => x
  | x :: y :: ys => x ++ sep ++ pyJoin sep (y :: ys)

/-- The ordered `bits_flags` dictionary built by `BitFlagShuffler.__init__`
(bitflags.py lines 64 to 67): key `0` maps to the unflagged meaning and key
`2^b` to the meaning of bit `b`, where `meanings` lists the meaning of bit 0
followed by the meanings of the subsequent bits. -/
def bits_flags (unflagged : String) (meanings : List String) : List (Nat × String) :=
  (0, unflagged) :: meanings.enum.map (fun p => (2 ^ p.1, p.2))

/-- The `bits` attribute of `BitFlagShuffler` (bitflags.py line 69): the flag
keys without the leading `0` entry. -/
def bitsOf (meanings : List String) : List Nat :=
  meanings.enum.map (fun p => 2 ^ p.1)

/-- The bit string produced by formatting `bitflag_template` (bitflags.py
lines 71 to 74 and 116): one position per bit, most significant first, holding
`1` exactly when the bit value is a member of the combination.  A character
`1` is modelled as `true`.  The constant `0b` front piece is consumed by the
Python `int(_, 2)` conversion and not represented. -/
def bitflagTemplate (n_bits : Nat) (combi : List Nat) : List Bool :=
  (List.range n_bits).reverse.map (fun b => decide ((2 ^ b) ∈ combi))

/-- Embedding of `BitFlagShuffler.bitflag2int` (bitflags.py lines 77 to 79),
Python `int(bitflag, 2)`: reads the bit characters most significant first. -/
def bitflag2int (s : List Bool) : Nat :=
  s.foldl (fun acc c => 2 * acc + (if c then 1 else 0)) 0

/-- Embedding of `BitFlagShuffler._combi2bitflag` (bitflags.py lines 99 to
118).  For the empty combination the meaning is the unflagged meaning, for a
single bit it is the dictionary entry of that bit, and for larger
combinations it is synthesized from the member bit values (`num = true`) or
meanings (`num = false`) joined by `sep` between `pre` and `post` (the
source parameter names carry a pref/sep/postf naming).  Returns the bit
string, the meaning and the integer flag value. -/
def combi2bitflag (unflagged : String) (meanings : List String) (num : Bool)
    (pre sep post : String) (combi : List Nat) : List Bool × String × Nat :=
  let meaning :=
    if combi.length = 0 then unflagged
    else if combi.length = 1 then
      ((bits_flags unflagged meanings).lookup (combi.headD 0)).getD ""
    else
      let flags := if num then combi.map (fun f => toString f)
                   else combi.map (fun f =>
                     ((bits_flags unflagged meanings).lookup f).getD "")
      pre ++ pyJoin sep flags ++ post
  let bf := bitflagTemplate meanings.length combi
  (bf, meaning, bitflag2int bf)

/-- One row of the flag table built by `BitFlagShuffler.build`: the integer
flag value (the DataFrame index), the formatted bit string, the meaning, and
the `_flags` combination the row was generated from (the source drops the
`_flags` column after deriving the boolean per-bit columns from it; it is
kept here to state per-row properties). -/
structure FlagRow where
  intflag : Nat
  bitflag : List Bool
  meaning : String
  flags : List Nat
deriving DecidableEq

/-- Embedding of `BitFlagShuffler.build` (bitflags.py lines 120 to 169): for
every combination size `bs` from `0` to `n_bits` and every size-`bs`
combination of the bits, a row is generated via `_combi2bitflag`, and the
resulting table is sorted by the integer flag value (`sort_index`).  The
combinations of each size are those of `itertools.combinations`; they are
modelled by `List.sublistsLen`, which produces the same combinations in a
different order within each size; the final table is identical because it is
sorted by the (distinct) integer values.  `buildRow` packages the result of
`_combi2bitflag` for one combination as a table row. -/
def buildRow (unflagged : String) (meanings : List String) (num : Bool)
    (pre sep post : String) (c : List Nat) : FlagRow :=
  let r := combi2bitflag unflagged meanings num pre sep post c
  ⟨r.2.2, r.1, r.2.1, c⟩

/-- Embedding of `BitFlagShuffler.build`; see `buildRow`. -/
def BitFlagShuffler_build (unflagged : String) (meanings : List String)
    (num : Bool) (pre sep post : String) : List FlagRow :=
  let bits := bitsOf meanings
  let rows := (List.range (meanings.length + 1)).flatMap (fun bs =>
    (List.sublistsLen bs bits).map (buildRow unflagged meanings num pre sep post))
  rows.mergeSort (fun a b => a.intflag ≤ b.intflag)

/-- A numeric cell value of an image variable: a rational number, the
floating NaN marker, or the Python `None` object (which `numpy.full` happily
stores). No floating point arithmetic is performed on these values in the
embedded code, so this discrete model is exact. -/
inductive Val where
  | num (q : ℚ)
  | nan
  | pynone
deriving DecidableEq

/-- One cell of a masked numpy array: the mask flag and the raw stored
value. -/
structure MaskedCell where
  masked : Bool
  value : Val
deriving DecidableEq

/-- Python `masked_array.filled(fill_value=fv)` on one row: masked cells are
replaced by `fv`, unmasked cells keep their value. -/
def filledWith (fv : Val) (row : List MaskedCell) : List Val :=
  row.map (fun c => if c.masked then fv else c.value)

/-- A netCDF variable of an image file: its name, the declared fill value of
the masked array returned by `netCDF4` (taken from the `_FillValue`
attribute), and the 2d raw data. -/
structure NcVar where
  name : String
  fillValue : Val
  data : List (List MaskedCell)
deriving DecidableEq

/-- A Python value used as a dictionary key in the embedded code: either a
string or a netCDF variable object.  Equality between a variable object and
a string is always false, which is what the Python membership test
`param in self.fillval` evaluates when `param` is the variable object and the
dictionary keys are parameter name strings. -/
inductive PyKey where
  | pystr (s : String)
  | pyvarobj (v : NcVar)
deriving DecidableEq

/-- The per-parameter fill-value dictionary `self.fillval` produced by
`C3SImg.__init__` (interface.py lines 110 to 116): a dictionary argument is
completed with `None` entries for parameters without a key; a scalar
argument (including `None` and `np.nan`) is assigned to every parameter. -/
inductive FillvalArg where
  | scalar (v : Option Val)
  | dict (d : List (String × Option Val))

/-- Normalisation of the `fillval` argument performed by `C3SImg.__init__`. -/
def initFillval (parameters : List String) : FillvalArg → List (String × Option Val)
  | .scalar v => parameters.map (fun p => (p, v))
  | .dict d =>
    d ++ (parameters.filter (fun p => ¬ d.any (fun kv => kv.1 = p))).map
      (fun p => (p, none))

/-- Embedding of the per-variable fill logic of `C3SImg.__read_flat_img`
(interface.py lines 163 to 185).  The source tests
`(param in self.fillval) and (self.fillval[param] is not None)` where `param`
is the netCDF variable OBJECT (`param = ds.variables[parameter]`) while the
dictionary keys are the parameter name strings; the membership test therefore
compares a variable object with strings.  When it holds and the stored fill
value is not `None`, the data is filled with the user fill value (the dtype
retry of the source changes only the dtype, not the values, and is not
modelled); otherwise `data.filled()` fills masked cells with the declared
fill value of the array.  The data is then flipped vertically (`np.flipud`)
and flattened. -/
def c3s_read_var (fvd : List (String × Option Val)) (v : NcVar) : List Val :=
  let member := fvd.any (fun kv => decide (PyKey.pyvarobj v = PyKey.pystr kv.1))
  let stored : Option (Option Val) :=
    if member then
      (fvd.find? (fun kv => decide (PyKey.pyvarobj v = PyKey.pystr kv.1))).map
        (fun kv => kv.2)
    else none
  let data2d :=
    match stored with
    | some (some u) => v.data.map (filledWith u)
    | _ => v.data.map (filledWith v.fillValue)
  data2d.reverse.flatten

/-- An image file as opened by `netCDF4.Dataset`: the timestamps decoded from
the declared `time` coordinate, and the data variables (coordinate variables
are excluded from this list; the source excludes them when discovering
parameters). -/
structure NcFile where
  timestamps : List Date
  vars : List NcVar
deriving DecidableEq

/-- Looking up the chosen parameters among the variables of the file
(`ds.variables[parameter]`, raising `KeyError` when absent). -/
def lookupVars (vars : List NcVar) : List String → Option (List (String × NcVar))
  | [] => some []
  | p :: ps =>
    match vars.find? (fun v => v.name = p) with
    | some v => (lookupVars vars ps).map (fun rest => (p, v) :: rest)
    | none => none

/-- Embedding of `C3SImg.__read_flat_img` (interface.py lines 141 to 191).
`file` is the result of opening the path: `none` models a missing or
unreadable file, for which `netCDF4.Dataset` raises an `IOError`
(`FileNotFoundError`).  The decoded time coordinate must hold exactly one
timestamp: `assert len(timestamp) == 1` raises `AssertionError` otherwise
(message `Found more than 1 time stamps in image`).  With an empty parameter
list all data variables of the file are read.  Each variable is read through
`c3s_read_var` and tagged with metadata `image_missing = 0`. -/
def read_flat_img (file : Option NcFile) (parameters : List String)
    (fvd : List (String × Option Val)) :
    Except PyError (List (String × List Val) × Nat × Date) :=
  match file with
  | none => .error .ioError
  | some f =>
    match f.timestamps with
    | [t] =>
      let params := if parameters.isEmpty then f.vars.map (fun v => v.name)
                    else parameters
      match lookupVars f.vars params with
      | some pvs => .ok (pvs.map (fun pv => (pv.1, c3s_read_var fvd pv.2)), 0, t)
      | none => .error .keyError
    | _ => .error .assertionError

/-- Embedding of `C3SImg.__read_empty_flat_image` (interface.py lines 118 to
139): every parameter becomes a full `yres * xres` array of its fill value
(`np.full` flattened); a parameter without a fill-value entry is filled with
NaN after a warning; a stored `None` entry is written as the Python `None`
object.  The per-parameter metadata is `image_missing = 1`. -/
def read_empty_flat_image (parameters : List String)
    (fvd : List (String × Option Val)) (shape : Nat × Nat) :
    List (String × List Val) :=
  parameters.map (fun p =>
    let fill := match fvd.lookup p with
      | some (some u) => u
      | some none => Val.pynone
      | none => Val.nan
    (p, List.replicate (shape.1 * shape.2) fill))

/-- Result of `C3SImg.read` before the grid masking and reshaping step: the
per-parameter flat data and the `image_missing` metadata flag shared by all
parameters (0 for a successfully read file, 1 for a synthesized empty
image).  The subsequent masking/reshaping and `Image` packaging of the
source (interface.py lines 253 to 278) is not modelled; the claims concern
the fill and synthesis stage. -/
structure ImgRead where
  data : List (String × List Val)
  image_missing : Nat
deriving DecidableEq

/-- Embedding of `C3SImg.read` (interface.py lines 236 to 251): the image is
read with `__read_flat_img`; an `IOError` (and only an `IOError`) is caught
and replaced by the synthesized empty image of `__read_empty_flat_image`;
any other exception, in particular the `AssertionError` of the timestamp
check, propagates to the caller. -/
def c3simg_read (file : Option NcFile) (parameters : List String)
    (fvd : List (String × Option Val)) (shape : Nat × Nat) :
    Except PyError ImgRead :=
  match read_flat_img file parameters fvd with
  | .ok (data, missing, _t) => .ok ⟨data, missing⟩
  | .error .ioError => .ok ⟨read_empty_flat_image parameters fvd shape, 1⟩
  | .error e => .error e

/-- The apostrophe character, written by Python `repr` around each string of
a formatted list. -/
def pyQuoteChar : Char := Char.ofNat 39

/-- Python `repr` of a string (as it appears inside a formatted list). -/
def pyQuote (s : String) : String :=
  String.singleton pyQuoteChar ++ s ++ String.singleton pyQuoteChar

/-- Python `str` of a list of strings, as interpolated by an f-string:
the quoted elements joined by a comma inside square brackets. -/
def pyReprStrList (l : List String) : String :=
  "[" ++ pyJoin ", " (l.map pyQuote) ++ "]"

/-- Embedding of `C3S_Nc_Img_Stack._build_filename` (interface.py lines 350
to 387).  `found` is the (sorted) list of filenames returned by the
`_search_files` glob search of the `pygeobase` base class for the timestamp
`tsStr`.  An empty search raises `IOError` (`No file found for ...`).  With
more than one match, policy `sort_last` keeps the last filename and warns
with a message naming the chosen file and the skipped files, policy
`sort_first` keeps the first filename and warns with a message naming only
the chosen file, and any other policy raises `IOError` (`File search is
ambiguous ...`).  Returns the chosen filename together with the list of
emitted warning messages. -/
def build_filename (solve_ambiguity tsStr : String) (found : List String) :
    Except PyError (String × List String) :=
  match found with
  | [] => .error .ioError
  | [f] => .ok (f, [])
  | f :: g :: rest =>
    let all := f :: g :: rest
    let last := all.getLast (by simp)
    if solve_ambiguity = "sort_last" then
      .ok (last,
        ["Ambiguous file for " ++ tsStr ++ " found. Sort and use last: " ++
          last ++ ", skipped " ++ pyReprStrList all.dropLast])
    else if solve_ambiguity = "sort_first" then
      .ok (f,
        ["Ambiguous file for " ++ tsStr ++ " found. Sort and use first: " ++ f])
    else .error .ioError

/-- Embedding of the read path of the image stack
(`MultiTemporalImageBase.read` of the external `pygeobase` base class, whose
documented contract is: resolve the filename through the `_build_filename`
override of the subclass, open the `ioclass` (`C3SImg`) on it and delegate
to its `read`; no exception of the filename resolution is caught there).
`fs` models the file system as an association of filenames to file
contents; a resolved filename absent from `fs` makes `netCDF4.Dataset`
raise `IOError` inside `C3SImg.read`. -/
def stack_read (fs : List (String × NcFile)) (solve_ambiguity tsStr : String)
    (found : List String) (parameters : List String)
    (fvd : List (String × Option Val)) (shape : Nat × Nat) :
    Except PyError ImgRead :=
  match build_filename solve_ambiguity tsStr found with
  | .error e => .error e
  | .ok (fn, _warnings) => c3simg_read (fs.lookup fn) parameters fvd shape

/-- The version-specific metadata classes defined in metadata.py:
`C3S_SM_TS_Attrs_v201706` (line 256) and `C3S_SM_TS_Attrs_v201801` (line
265).  `img2ts` looks the class up with
`getattr(metadata, f"C3S_SM_TS_Attrs_{version}")` (reshuffle.py line 224),
which raises `AttributeError` for any other version string. -/
def metadataVersionClasses : List String := ["v201706", "v201801"]

/-- The observable file-system effects of one `img2ts` run, in order. -/
inductive TsEffect where
  | readImageArchive   -- scanning the image directory (parse_filename and
                       -- the C3S_Nc_Img_Stack constructor)
  | deleteTsDir        -- shutil.rmtree(ts_path)
  | createTsDir        -- os.makedirs(ts_path)
  | convertAndFlush    -- reshuffler.calc(): reading images and writing the
                       -- time series cell files
  | writeSummary       -- update_ts_summary_file(ts_path, ...)
deriving DecidableEq

/-- The inputs of `img2ts` that determine its control flow. -/
structure Img2TsArgs where
  imgPathIsParentOfTs : Bool   -- Path(img_path) in Path(ts_path).parents
  bboxGiven : Bool
  cellsGiven : Bool
  parametersGiven : Bool       -- a parameter list was passed (else discovery)
  ignore_meta : Bool
  version : String             -- version field parsed from the file names
  overwrite : Bool
  tsPathExists : Bool          -- os.path.exists(ts_path) at entry

/-- Embedding of the control flow of `img2ts` (reshuffle.py lines 136 to
286): the ts-inside-img path check and the bbox/cells conflict check raise
`ValueError` first; discovering parameters and constructing the image stack
scan the image archive; unless `ignore_meta` is set, the version-keyed
metadata class lookup happens next and raises `AttributeError` for an
unsupported version; only then is the output directory deleted (when
`overwrite` is set and it exists), created (when absent), converted into,
and the summary file written.  Returns the effect trace together with the
raised exception, if any. -/
def img2ts_run (a : Img2TsArgs) : List TsEffect × Option PyError :=
  if a.imgPathIsParentOfTs then ([], some .valueError)
  else if a.bboxGiven && a.cellsGiven then ([], some .valueError)
  else
    let disc := if a.parametersGiven then [] else [TsEffect.readImageArchive]
    let pre := disc ++ [TsEffect.readImageArchive]
    if !a.ignore_meta && !(metadataVersionClasses.contains a.version) then
      (pre, some .attributeError)
    else
      let del := if a.overwrite && a.tsPathExists then [TsEffect.deleteTsDir]
                 else []
      let existsAfter := a.tsPathExists && !(a.overwrite && a.tsPathExists)
      let mk := if !existsAfter then [TsEffect.createTsDir] else []
      (pre ++ del ++ mk ++ [TsEffect.convertAndFlush, TsEffect.writeSummary],
        none)

/-- Lexicographic comparison of character lists, as Python compares
strings. -/
def charListLe : List Char → List Char → Bool
  | [], _ => true
  | _ :: _, [] => false
  | a :: as, b :: bs =>
    if a = b then charListLe as bs else decide (a.toNat < b.toNat)

/-- Python string comparison `a <= b`. -/
def strLe (a b : String) : Prop := charListLe a.data b.data = true

instance : DecidableRel strLe := by
  unfold strLe; infer_instance

/-- Strict lexicographic comparison of character lists (Python string
comparison `a < b`, by code points). -/
def charListLt : List Char → List Char → Bool
  | [], [] => false
  | [], _ :: _ => true
  | _ :: _, [] => false
  | a :: as, b :: bs =>
    if a = b then charListLt as bs else decide (a.toNat < b.toNat)

/-- Python string comparison `a < b`. -/
def strLt (a b : String) : Prop := charListLt a.data b.data = true

instance : DecidableRel strLt := by
  unfold strLt; infer_instance

/-- Splitting a character list at a separator character, used to model the
template matching of the external `parse` library on the concrete default
filename template. -/
def splitChar (c : Char) : List Char → List (List Char)
  | [] => [[]]
  | x :: xs =>
    match splitChar c xs with
    | [] => [[]]
    | r :: rs => if x = c then [] :: r :: rs else (x :: r) :: rs

/-- Model of `parse(fntempl, filename)` of the external `parse` library for
the default template of const.py
(`C3S-SOILMOISTURE-L3S-SSM...-...-...-...-...-... .nc` with fields unit,
product, freq, datetime, record and version.subversion between the fixed
hyphen-separated tokens); returns the `datetime` field of a matching
filename. -/
def parseDatetimeC3S (fn : String) : Option String :=
  match splitChar (Char.ofNat 45) fn.data with
  | [a, b, c, u, _product, _freq, dt, _record, _tail] =>
    if a = "C3S".data ∧ b = "SOILMOISTURE".data ∧ c = "L3S".data ∧
        "SSM".data.isPrefixOf u then some (String.mk dt)
    else none
  | _ => none

/-- Embedding of `img_infer_file_props` (misc.py lines 63 to 91): the globbed
`*.nc` file names are sorted (Python `files.sort()`, modelled by a stable
insertion sort under the Python string order); an empty list raises
`ValueError`; for `start_from = "last"` the sorted list is walked in reverse,
for `"first"` forwards, anything else raises `NotImplementedError`; the
first file matching the template determines the returned properties (here:
the `datetime` field), and `ValueError` is raised when none matches. -/
def img_infer_file_props (parse_dt : String → Option String)
    (files : List String) (start_from : String) : Except PyError String :=
  let sorted := files.insertionSort strLe
  if sorted.length = 0 then .error .valueError
  else if pyLower start_from = "last".data then
    match sorted.reverse.findSome? parse_dt with
    | some dt => .ok dt
    | none => .error .valueError
  else if pyLower start_from = "first".data then
    match sorted.findSome? parse_dt with
    | some dt => .ok dt
    | none => .error .valueError
  else .error .notImplementedError

/-- Embedding of `get_first_image_date` (misc.py lines 104 to 132): infers
the date of the first image file in the given directory; a `ValueError` of
the inference is re-raised as `ValueError` (`Could not infer start date from
image files.`). -/
def get_first_image_date (parse_dt : String → Option String)
    (files : List String) : Except PyError String :=
  img_infer_file_props parse_dt files "first"

/-- Embedding of `get_last_image_date` (misc.py lines 135 to 161): infers the
date of the last image file in the given directory; a `ValueError` of the
inference is re-raised as `ValueError` (`Could not infer end date from image
files.`). -/
def get_last_image_date (parse_dt : String → Option String)
    (files : List String) : Except PyError String :=
  img_infer_file_props parse_dt files "last"

/-- Embedding of the date resolution of `cli_reshuffle` (cli.py lines 293 to
302): an omitted start date is auto-discovered with
`get_first_image_date(img_path, fntempl)`; an omitted end date is resolved
with `get_last_image_date(ts_path, fntempl)`, that is, the search runs over
the files of the OUTPUT time series directory.  `imgFiles` and `tsFiles` are
the `*.nc` file names found under the image directory and under the time
series directory. -/
def cli_reshuffle_resolve_dates (parse_dt : String → Option String)
    (imgFiles tsFiles : List String) (startdate enddate : Option String) :
    Except PyError (String × String) := do
  let s ← match startdate with
    | some s => Except.ok s
    | none => get_first_image_date parse_dt imgFiles
  let e ← match enddate with
    | some e => Except.ok e
    | none => get_last_image_date parse_dt tsFiles
  return (s, e)

/-! Helper lemmas about the date model. -/

theorem daysInMonth_ge_28 (y m : Nat) : 28 ≤ daysInMonth y m := by
  unfold daysInMonth
  split
  · split <;> omega
  · split <;> omega

theorem daysInMonth_le_31 (y m : Nat) : daysInMonth y m ≤ 31 := by
  unfold daysInMonth
  split
  · split <;> omega
  · split <;> omega

theorem Date.Valid.bounds {d : Date} (h : d.Valid) :
    1 ≤ d.month ∧ d.month ≤ 12 ∧ 1 ≤ d.day ∧ d.day ≤ 31 :=
  ⟨h.1, h.2.1, h.2.2.1, le_trans h.2.2.2 (daysInMonth_le_31 _ _)⟩

theorem dlt_trans {a b c : Date} (h1 : dlt a b) (h2 : dlt b c) : dlt a c := by
  obtain ⟨ay, am, ad⟩ := a; obtain ⟨cy, cm, cd⟩ := b; obtain ⟨ey, em, ed⟩ := c
  simp only [dlt] at *
  omega

theorem dlt_irrefl (a : Date) : ¬ dlt a a := by
  obtain ⟨ay, am, ad⟩ := a
  simp only [dlt]
  omega

theorem dlt_asymm {a b : Date} (h : dlt a b) : ¬ dlt b a := by
  obtain ⟨ay, am, ad⟩ := a; obtain ⟨cy, cm, cd⟩ := b
  simp only [dlt] at *
  omega

theorem dlt_ne {a b : Date} (h : dlt a b) : a ≠ b := by
  rintro rfl
  exact dlt_irrefl a h

theorem dlt_of_rank_lt {a b : Date} (ha : a.Valid) (hb : b.Valid)
    (h : dateRank a < dateRank b) : dlt a b := by
  obtain ⟨h1, h2, h3, h4⟩ := ha.bounds
  obtain ⟨g1, g2, g3, g4⟩ := hb.bounds
  obtain ⟨ay, am, ad⟩ := a; obtain ⟨cy, cm, cd⟩ := b
  simp only [dlt, dateRank] at *
  omega

theorem rank_lt_of_dlt {a b : Date} (ha : a.Valid) (hb : b.Valid)
    (h : dlt a b) : dateRank a < dateRank b := by
  obtain ⟨h1, h2, h3, h4⟩ := ha.bounds
  obtain ⟨g1, g2, g3, g4⟩ := hb.bounds
  obtain ⟨ay, am, ad⟩ := a; obtain ⟨cy, cm, cd⟩ := b
  simp only [dlt, dateRank] at *
  omega

theorem dlt_iff_rank {a b : Date} (ha : a.Valid) (hb : b.Valid) :
    dlt a b ↔ dateRank a < dateRank b :=
  ⟨rank_lt_of_dlt ha hb, dlt_of_rank_lt ha hb⟩

theorem rank_eq_of_valid {a b : Date} (ha : a.Valid) (hb : b.Valid)
    (h : dateRank a = dateRank b) : a = b := by
  obtain ⟨h1, h2, h3, h4⟩ := ha.bounds
  obtain ⟨g1, g2, g3, g4⟩ := hb.bounds
  obtain ⟨ay, am, ad⟩ := a; obtain ⟨cy, cm, cd⟩ := b
  simp only [dateRank] at *
  simp only [Date.mk.injEq]
  omega

theorem dle_iff_rank {a b : Date} (ha : a.Valid) (hb : b.Valid) :
    dle a b ↔ dateRank a ≤ dateRank b := by
  constructor
  · rintro (h | rfl)
    · exact le_of_lt (rank_lt_of_dlt ha hb h)
    · exact le_rfl
  · intro h
    rcases lt_or_eq_of_le h with h | h
    · exact Or.inl (dlt_of_rank_lt ha hb h)
    · exact Or.inr (rank_eq_of_valid ha hb h)

theorem nextDay_valid {d : Date} (h : d.Valid) : (nextDay d).Valid := by
  obtain ⟨h1, h2, h3, h4⟩ := h
  have g1 := daysInMonth_ge_28 d.year (d.month + 1)
  have g2 := daysInMonth_ge_28 (d.year + 1) 1
  unfold nextDay Date.Valid
  split
  · dsimp only
    omega
  · split <;> (dsimp only; omega)

theorem nextDay_dlt (d : Date) : dlt d (nextDay d) := by
  unfold nextDay dlt
  split
  · dsimp only
    omega
  · split <;> (dsimp only; omega)

theorem addOneMonth_valid {d : Date} (h : d.Valid) : (addOneMonth d).Valid := by
  obtain ⟨h1, h2, h3, h4⟩ := h
  have g1 := daysInMonth_ge_28 d.year (d.month + 1)
  have g2 : daysInMonth (d.year + 1) 1 = 31 := by
    simp [daysInMonth]
  have g3 := daysInMonth_le_31 d.year d.month
  unfold addOneMonth Date.Valid
  split <;> (dsimp only; omega)

theorem addOneMonth_dlt (d : Date) : dlt d (addOneMonth d) := by
  unfold addOneMonth dlt
  split <;> (dsimp only; omega)

/-- A stepper (one of the three `next` lambdas of `tstamps_for_daterange`)
preserves validity and strictly advances the date. -/
def StepOk (f : Date → Date) : Prop :=
  ∀ d : Date, d.Valid → (f d).Valid ∧ dlt d (f d)

theorem stepOk_nextDay : StepOk nextDay :=
  fun _ h => ⟨nextDay_valid h, nextDay_dlt _⟩

theorem addDays_valid {d : Date} (h : d.Valid) (n : Nat) : (addDays n d).Valid := by
  induction n with
  | zero => exact h
  | succ n ih =>
    rw [addDays, Function.iterate_succ_apply']
    exact nextDay_valid ih

theorem rank_add_le_addDays {d : Date} (h : d.Valid) (n : Nat) :
    dateRank d + n ≤ dateRank (addDays n d) := by
  induction n with
  | zero => simp [addDays]
  | succ n ih =>
    have hv := addDays_valid h n
    have h1 := rank_lt_of_dlt hv (nextDay_valid hv) (nextDay_dlt (addDays n d))
    have e : addDays (n + 1) d = nextDay (addDays n d) :=
      Function.iterate_succ_apply' nextDay n d
    rw [e]
    omega

theorem stepOk_addDays (n : Nat) (hn : 0 < n) : StepOk (addDays n) := by
  intro d h
  refine ⟨addDays_valid h n, ?_⟩
  apply dlt_of_rank_lt h (addDays_valid h n)
  have := rank_add_le_addDays h n
  omega

theorem stepOk_addOneMonth : StepOk addOneMonth :=
  fun _ h => ⟨addOneMonth_valid h, addOneMonth_dlt _⟩

/-- The appended timestamps form a strictly increasing chain after the start
date. -/
theorem tstampsGo_chain {f : Date → Date} (hf : StepOk f) (endD : Date) :
    ∀ (fuel : Nat) (last : Date), last.Valid →
      List.Chain' dlt (last :: tstampsGo f endD fuel last) := by
  intro fuel
  induction fuel with
  | zero => intro last _; simp [tstampsGo]
  | succ fuel ih =>
    intro last hlast
    rw [tstampsGo]
    split
    · rw [List.chain'_cons]
      exact ⟨(hf last hlast).2, ih (f last) (hf last hlast).1⟩
    · simp

instance : IsTrans Date dlt := ⟨fun _ _ _ => dlt_trans⟩

theorem tstampsGo_pairwise {f : Date → Date} (hf : StepOk f) (endD : Date)
    (fuel : Nat) (last : Date) (hlast : last.Valid) :
    List.Pairwise dlt (last :: tstampsGo f endD fuel last) :=
  List.chain'_iff_pairwise.mp (tstampsGo_chain hf endD fuel last hlast)

/-- Fixpoint property of the fueled loop: as soon as the fuel dominates the
remaining rank distance to the end date the result no longer depends on the
fuel, so the fueled loop computes the same list as the unbounded Python
`while` loop.  The fuel `dateRank endD + 1` used in `tstamps_for_daterange`
always dominates. -/
theorem tstampsGo_stable {f : Date → Date} (hf : StepOk f) {endD : Date}
    (hend : endD.Valid) :
    ∀ (fuel : Nat) (last : Date), last.Valid →
      dateRank endD ≤ dateRank last + fuel →
      tstampsGo f endD fuel last = tstampsGo f endD (fuel + 1) last := by
  intro fuel
  induction fuel with
  | zero =>
    intro last hlast hrank
    have h1 : ¬ dle (f last) endD := by
      intro hle
      have := (dle_iff_rank (hf last hlast).1 hend).mp hle
      have := rank_lt_of_dlt hlast (hf last hlast).1 (hf last hlast).2
      omega
    simp [tstampsGo, h1]
  | succ fuel ih =>
    intro last hlast hrank
    rw [tstampsGo, tstampsGo]
    split
    · rename_i hle
      have hrank2 : dateRank endD ≤ dateRank (f last) + fuel := by
        have := rank_lt_of_dlt hlast (hf last hlast).1 (hf last hlast).2
        omega
      rw [ih (f last) (hf last hlast).1 hrank2]
    · rfl

/-- Length of the daily enumeration: from a valid date `last` to
`addDays d last` the loop appends exactly `d` timestamps, provided the fuel
is at least `d`. -/
theorem tstampsGo_daily_length :
    ∀ (d : Nat) (last : Date), last.Valid → ∀ (fuel : Nat), d ≤ fuel →
      (tstampsGo (addDays 1) (addDays d last) fuel last).length = d := by
  intro d
  induction d with
  | zero =>
    intro last hlast fuel _
    have h1 : ¬ dle (addDays 1 last) (addDays 0 last) := by
      intro hle
      have e0 : addDays 0 last = last := rfl
      rw [e0] at hle
      have h2 := (dle_iff_rank (addDays_valid hlast 1) hlast).mp hle
      have h3 := rank_add_le_addDays hlast 1
      omega
    cases fuel with
    | zero => rfl
    | succ fuel => simp [tstampsGo, h1]
  | succ d ih =>
    intro last hlast fuel hfuel
    cases fuel with
    | zero => omega
    | succ fuel =>
      have e1 : addDays (d + 1) last = addDays d (addDays 1 last) := by
        simp only [addDays, Function.iterate_one]
        exact Function.iterate_succ_apply nextDay d last
      have hnv : (addDays 1 last).Valid := addDays_valid hlast 1
      have hcond : dle (addDays 1 last) (addDays (d + 1) last) := by
        rw [e1]
        refine (dle_iff_rank hnv (addDays_valid hnv d)).mpr ?_
        have := rank_add_le_addDays hnv d
        omega
      rw [tstampsGo, if_pos hcond, List.length_cons, e1,
        ih (addDays 1 last) hnv fuel (by omega)]

/-- Claim C5: for every pair of dates and every supported frequency the
timestamp enumeration is deterministic (it is a pure function, so two calls
with identical arguments are definitionally equal), strictly increasing and
duplicate free; for DAILY frequency the sequence length equals the day
difference plus one (`e = addDays d s` states that the difference
`(end - start).days` is `d`). -/
theorem tstamps_deterministic_sorted_count (temp : String)
    (htemp : temp = "MONTHLY" ∨ temp = "DAILY" ∨ temp = "DEKADAL")
    (s e : Date) (hs : s.Valid) :
    ∃ ts : List Date,
      tstamps_for_daterange temp s e = .ok ts ∧
      tstamps_for_daterange temp s e = tstamps_for_daterange temp s e ∧
      ts.Pairwise dlt ∧ ts.Nodup ∧
      (temp = "DAILY" → ∀ d : Nat, e = addDays d s → ts.length = d + 1) := by
  have nodup_of : ∀ ts : List Date, ts.Pairwise dlt → ts.Nodup := by
    intro ts h
    exact h.imp (fun hab => dlt_ne hab)
  rcases htemp with rfl | rfl | rfl
  · refine ⟨s :: tstampsGo addOneMonth e (dateRank e + 1) s,
      by simp [tstamps_for_daterange], rfl, ?_, ?_, ?_⟩
    · exact tstampsGo_pairwise stepOk_addOneMonth e _ s hs
    · exact nodup_of _ (tstampsGo_pairwise stepOk_addOneMonth e _ s hs)
    · intro h
      simp at h
  · refine ⟨s :: tstampsGo (addDays 1) e (dateRank e + 1) s,
      by simp [tstamps_for_daterange], rfl, ?_, ?_, ?_⟩
    · exact tstampsGo_pairwise (stepOk_addDays 1 (by omega)) e _ s hs
    · exact nodup_of _ (tstampsGo_pairwise (stepOk_addDays 1 (by omega)) e _ s hs)
    · intro _ d hd
      subst hd
      rw [List.length_cons]
      have hfuel : d ≤ dateRank (addDays d s) + 1 := by
        have := rank_add_le_addDays hs d
        omega
      rw [tstampsGo_daily_length d s hs (dateRank (addDays d s) + 1) hfuel]
  · refine ⟨s :: tstampsGo (addDays 10) e (dateRank e + 1) s,
      by simp [tstamps_for_daterange], rfl, ?_, ?_, ?_⟩
    · exact tstampsGo_pairwise (stepOk_addDays 10 (by omega)) e _ s hs
    · exact nodup_of _ (tstampsGo_pairwise (stepOk_addDays 10 (by omega)) e _ s hs)
    · intro h
      simp at h

/-- Witness for C5 at a concrete leap-spanning range. -/
theorem tstamps_deterministic_sorted_count_witness :
    ∃ ts : List Date,
      tstamps_for_daterange "DAILY" ⟨2020, 2, 27⟩ ⟨2020, 3, 1⟩ = .ok ts ∧
      tstamps_for_daterange "DAILY" ⟨2020, 2, 27⟩ ⟨2020, 3, 1⟩ =
        tstamps_for_daterange "DAILY" ⟨2020, 2, 27⟩ ⟨2020, 3, 1⟩ ∧
      ts.Pairwise dlt ∧ ts.Nodup ∧
      ("DAILY" = "DAILY" → ∀ d : Nat, (⟨2020, 3, 1⟩ : Date) = addDays d ⟨2020, 2, 27⟩ →
        ts.length = d + 1) :=
  tstamps_deterministic_sorted_count "DAILY" (by simp) ⟨2020, 2, 27⟩ ⟨2020, 3, 1⟩
    (by decide)

/-- Claim C1 (refuted by the code): the DEKADAL enumeration advances by a
naive ten days (`relativedelta(days=10)`), so enumerating from 2021-01-01 to
2021-02-01 produces the timestamp 2021-01-31, whose day of month is outside
the dekadal set 1, 11, 21; likewise the extend operation computes
2021-01-31 as the next expected dekadal timestamp after a recorded end date
2021-01-21. -/
theorem dekadal_tstamps_produce_day_31 :
    tstamps_for_daterange "DEKADAL" ⟨2021, 1, 1⟩ ⟨2021, 2, 1⟩ =
      .ok [⟨2021, 1, 1⟩, ⟨2021, 1, 11⟩, ⟨2021, 1, 21⟩, ⟨2021, 1, 31⟩] ∧
    extend_ts_startdate "DEKADAL" ⟨2021, 1, 21⟩ = .ok ⟨2021, 1, 31⟩ ∧
    (⟨2021, 1, 31⟩ : Date).day ∉ ([1, 11, 21] : List Nat) := by
  refine ⟨by decide, by decide, by decide⟩

/-! Helper lemmas for the flag table. -/

theorem bitflag2int_foldl (bs : List Bool) (a : Nat) :
    bs.foldl (fun acc c => 2 * acc + (if c then 1 else 0)) a =
      a * 2 ^ bs.length + bitflag2int bs := by
  induction bs generalizing a with
  | nil => simp [bitflag2int]
  | cons b bs ih =>
    simp only [List.foldl_cons, bitflag2int, List.length_cons]
    rw [ih (2 * a + if b then 1 else 0), ih (2 * 0 + if b then 1 else 0)]
    ring

theorem bitflag2int_template (k : Nat) (combi : List Nat) :
    bitflag2int (bitflagTemplate k combi) =
      ∑ b ∈ Finset.range k, if 2 ^ b ∈ combi then 2 ^ b else 0 := by
  induction k with
  | zero => simp [bitflagTemplate, bitflag2int]
  | succ k ih =>
    have e1 : bitflagTemplate (k + 1) combi =
        decide ((2 ^ k) ∈ combi) :: bitflagTemplate k combi := by
      simp [bitflagTemplate, List.range_succ]
    rw [e1]
    have e2 : bitflag2int (decide ((2 ^ k) ∈ combi) :: bitflagTemplate k combi) =
        (if (2 ^ k) ∈ combi then 1 else 0) * 2 ^ k + bitflag2int (bitflagTemplate k combi) := by
      simp only [bitflag2int, List.foldl_cons]
      rw [bitflag2int_foldl]
      have hl : (bitflagTemplate k combi).length = k := by
        simp [bitflagTemplate]
      rw [hl]
      split <;> simp_all [bitflag2int]
    rw [e2, ih, Finset.sum_range_succ]
    split <;> omega

theorem mem_map_pow {es : List Nat} {b : Nat} :
    (2 ^ b ∈ es.map (fun e => (2 : Nat) ^ e)) ↔ b ∈ es := by
  constructor
  · intro h
    obtain ⟨e, he, heq⟩ := List.mem_map.mp h
    have := Nat.pow_right_injective (le_refl 2) heq.symm
    simpa [this] using he
  · intro h
    exact List.mem_map.mpr ⟨b, h, rfl⟩

theorem sum_ite_mem_range {k : Nat} {es : List Nat} (hnd : es.Nodup)
    (hsub : ∀ e ∈ es, e < k) :
    (∑ b ∈ Finset.range k, if b ∈ es then (2 : Nat) ^ b else 0) =
      (es.map (fun e => 2 ^ e)).sum := by
  rw [← Finset.sum_filter]
  have e1 : (Finset.range k).filter (fun b => b ∈ es) = es.toFinset := by
    ext b
    simp only [Finset.mem_filter, Finset.mem_range, List.mem_toFinset]
    exact ⟨fun h => h.2, fun h => ⟨hsub b h, h⟩⟩
  rw [e1, List.sum_toFinset _ hnd]

theorem two_pow_lor_of_dvd (e s : Nat) (h : 2 ^ (e + 1) ∣ s) :
    2 ^ e ||| s = 2 ^ e + s := by
  obtain ⟨m, rfl⟩ := h
  apply Nat.eq_of_testBit_eq
  intro j
  rw [Nat.testBit_lor]
  rcases Nat.lt_trichotomy j e with hj | rfl | hj
  · rw [Nat.testBit_two_pow_add_gt hj, Nat.testBit_two_pow_of_ne (Nat.ne_of_gt hj)]
    simp
  · rw [Nat.testBit_two_pow_add_eq, Nat.testBit_two_pow_self]
    have hb : (2 ^ (j + 1) * m).testBit j = false := by
      rw [Nat.testBit_to_div_mod]
      have hd : 2 ^ (j + 1) * m / 2 ^ j = 2 * m := by
        rw [pow_succ, mul_comm (2 ^ j) 2, mul_assoc, mul_comm (2 ^ j) m,
          ← mul_assoc, Nat.mul_div_cancel _ (Nat.two_pow_pos j)]
      simp [hd, Nat.mul_mod_right]
    simp [hb]
  · obtain ⟨d, rfl⟩ : ∃ d, j = e + 1 + d := ⟨j - (e + 1), by omega⟩
    rw [Nat.testBit_two_pow_of_ne (by omega)]
    rw [Nat.testBit_to_div_mod, Nat.testBit_to_div_mod]
    have hp : (2 : Nat) ^ (e + 1 + d) = 2 ^ (e + 1) * 2 ^ d := pow_add 2 (e + 1) d
    have h1 : (2 ^ e + 2 ^ (e + 1) * m) / 2 ^ (e + 1 + d) = m / 2 ^ d := by
      rw [hp, ← Nat.div_div_eq_div_mul,
        Nat.add_mul_div_left _ _ (Nat.two_pow_pos (e + 1)),
        Nat.div_eq_of_lt (Nat.pow_lt_pow_right (by omega) (by omega))]
      simp
    have h2 : 2 ^ (e + 1) * m / 2 ^ (e + 1 + d) = m / 2 ^ d := by
      rw [hp, ← Nat.div_div_eq_div_mul,
        Nat.mul_div_cancel_left _ (Nat.two_pow_pos (e + 1))]
    rw [h1, h2]
    simp

theorem foldr_lor_map_pow (es : List Nat) (hs : es.Pairwise (· < ·)) :
    (es.map (fun e => (2 : Nat) ^ e)).foldr (fun a acc => a ||| acc) 0 =
      (es.map (fun e => 2 ^ e)).sum := by
  induction es with
  | nil => simp
  | cons e rest ih =>
    rw [List.pairwise_cons] at hs
    simp only [List.map_cons, List.foldr_cons, List.sum_cons]
    rw [ih hs.2]
    apply two_pow_lor_of_dvd
    apply List.dvd_sum
    intro x hx
    obtain ⟨r, hr, rfl⟩ := List.mem_map.mp hx
    exact pow_dvd_pow 2 (hs.1 r hr)

theorem bitsOf_eq (meanings : List String) :
    bitsOf meanings = (List.range meanings.length).map (fun b => 2 ^ b) := by
  unfold bitsOf
  rw [← List.enum_map_fst meanings, List.map_map]
  rfl

theorem combi_analysis (ms : List String) {c : List Nat}
    (hc : c.Sublist (bitsOf ms)) :
    ∃ es : List Nat, es.Sublist (List.range ms.length) ∧
      c = es.map (fun e => 2 ^ e) ∧
      bitflag2int (bitflagTemplate ms.length c) = c.sum ∧
      c.foldr (fun a acc => a ||| acc) 0 = c.sum := by
  rw [bitsOf_eq] at hc
  obtain ⟨es, hes, rfl⟩ := List.sublist_map_iff.mp hc
  have hnd : es.Nodup := hes.nodup (List.nodup_range _)
  have hlt : ∀ e ∈ es, e < ms.length := fun e he => List.mem_range.mp (hes.subset he)
  have hpw : es.Pairwise (· < ·) := List.Pairwise.sublist hes (List.pairwise_lt_range _)
  refine ⟨es, hes, rfl, ?_, foldr_lor_map_pow es hpw⟩
  rw [bitflag2int_template]
  have e1 : ∀ b ∈ Finset.range ms.length,
      (if 2 ^ b ∈ es.map (fun e => (2:Nat) ^ e) then (2:Nat) ^ b else 0) =
        (if b ∈ es then 2 ^ b else 0) := by
    intro b _
    simp [mem_map_pow]
  rw [Finset.sum_congr rfl e1, sum_ite_mem_range hnd hlt]

theorem lookup_enumFrom_pow (ms : List String) :
    ∀ (off j : Nat), j < ms.length →
      ((List.enumFrom off ms).map (fun p => ((2:Nat) ^ p.1, p.2))).lookup
          (2 ^ (off + j)) = ms[j]? := by
  induction ms with
  | nil =>
    intro off j h
    simp at h
  | cons m rest ih =>
    intro off j h
    cases j with
    | zero =>
      simp [List.enumFrom, List.lookup]
    | succ j =>
      have hne : ((2:Nat) ^ (off + (j + 1)) == 2 ^ off) = false := by
        simp only [beq_eq_false_iff_ne, ne_eq]
        intro hcontra
        have := Nat.pow_right_injective (le_refl 2) hcontra
        omega
      simp only [List.enumFrom, List.map_cons, List.lookup, hne]
      have e2 : off + (j + 1) = (off + 1) + j := by omega
      rw [e2, ih (off + 1) j (by simpa using h)]
      simp

theorem bits_flags_lookup (unflagged : String) (ms : List String) (b : Nat)
    (hb : b < ms.length) :
    (bits_flags unflagged ms).lookup (2 ^ b) = ms[b]? := by
  have hne : ((2:Nat) ^ b == 0) = false := by
    simp only [beq_eq_false_iff_ne, ne_eq]
    exact Nat.pos_iff_ne_zero.mp (Nat.two_pow_pos b)
  unfold bits_flags
  simp only [List.lookup, hne]
  have e0 : ms.enum = ms.enumFrom 0 := rfl
  have eb : (2:Nat) ^ b = 2 ^ (0 + b) := by rw [Nat.zero_add]
  rw [e0, eb, lookup_enumFrom_pow ms 0 b hb]

theorem bitflag2int_template_nil (k : Nat) :
    bitflag2int (bitflagTemplate k []) = 0 := by
  rw [bitflag2int_template]
  simp

/-- Claim C2: a flag catalog built from `k` named single-bit meanings (the
meaning of bit 0 is `m0`, the remaining bits are named by `rest`, so
`k = rest.length + 1`) yields a table with exactly `2 ^ k` entries; an entry
with integer value `0` exists, every entry with integer value `0` carries
the unflagged meaning, every size-one combination appears with integer
value `2 ^ b` and its named meaning, and every entry's integer value is the
bitwise OR of the bit values of its constituent flags. -/
theorem flag_table_closure (unflagged m0 : String) (rest : List String)
    (num : Bool) (pre sep post : String) :
    (BitFlagShuffler_build unflagged (m0 :: rest) num pre sep post).length =
        2 ^ (m0 :: rest).length ∧
    (∃ r ∈ BitFlagShuffler_build unflagged (m0 :: rest) num pre sep post,
        r.intflag = 0 ∧ r.meaning = unflagged) ∧
    (∀ r ∈ BitFlagShuffler_build unflagged (m0 :: rest) num pre sep post,
        r.intflag = 0 → r.meaning = unflagged) ∧
    (∀ b < (m0 :: rest).length,
        ∃ r ∈ BitFlagShuffler_build unflagged (m0 :: rest) num pre sep post,
          r.intflag = 2 ^ b ∧ r.meaning = (m0 :: rest).getD b "") ∧
    (∀ r ∈ BitFlagShuffler_build unflagged (m0 :: rest) num pre sep post,
        r.intflag = r.flags.foldr (fun a acc => a ||| acc) 0) := by
  set ms := m0 :: rest with hms
  have hbl : (bitsOf ms).length = ms.length := by
    rw [bitsOf_eq]
    simp
  have hbuild : BitFlagShuffler_build unflagged ms num pre sep post =
      ((List.range (ms.length + 1)).flatMap fun bs =>
        (List.sublistsLen bs (bitsOf ms)).map
          (buildRow unflagged ms num pre sep post)).mergeSort
        (fun a b => a.intflag ≤ b.intflag) := rfl
  have hpc : ((List.range (ms.length + 1)).flatMap fun bs =>
      List.sublistsLen bs (bitsOf ms)).Perm (bitsOf ms).sublists' := by
    have := List.range_bind_sublistsLen_perm (bitsOf ms)
    rw [hbl] at this
    exact this
  have hperm : (BitFlagShuffler_build unflagged ms num pre sep post).Perm
      (((List.range (ms.length + 1)).flatMap fun bs =>
        List.sublistsLen bs (bitsOf ms)).map
          (buildRow unflagged ms num pre sep post)) := by
    rw [hbuild]
    refine (List.mergeSort_perm _ _).trans ?_
    rw [List.map_flatMap]
  have hmem : ∀ r, r ∈ BitFlagShuffler_build unflagged ms num pre sep post ↔
      ∃ c, c.Sublist (bitsOf ms) ∧ buildRow unflagged ms num pre sep post c = r := by
    intro r
    rw [hperm.mem_iff, List.mem_map]
    constructor
    · rintro ⟨c, hc, rfl⟩
      exact ⟨c, List.mem_sublists'.mp (hpc.mem_iff.mp hc), rfl⟩
    · rintro ⟨c, hc, rfl⟩
      exact ⟨c, hpc.mem_iff.mpr (List.mem_sublists'.mpr hc), rfl⟩
  refine ⟨?_, ?_, ?_, ?_, ?_⟩
  · rw [hperm.length_eq, List.length_map, hpc.length_eq, List.length_sublists', hbl]
  · refine ⟨buildRow unflagged ms num pre sep post [],
      (hmem _).mpr ⟨[], List.nil_sublist _, rfl⟩, ?_, rfl⟩
    show bitflag2int (bitflagTemplate ms.length []) = 0
    exact bitflag2int_template_nil ms.length
  · intro r hr h0
    obtain ⟨c, hc, rfl⟩ := (hmem r).mp hr
    obtain ⟨es, _, rfl, hparse, _⟩ := combi_analysis ms hc
    have h0' : (es.map (fun e => (2:Nat) ^ e)).sum = 0 := by
      rw [← hparse]
      exact h0
    have hes0 : es = [] := by
      cases es with
      | nil => rfl
      | cons e es' =>
        exfalso
        rw [List.map_cons, List.sum_cons] at h0'
        have := Nat.two_pow_pos e
        omega
    subst hes0
    rfl
  · intro b hb
    have hcs : ([(2:Nat) ^ b]).Sublist (bitsOf ms) := by
      rw [List.singleton_sublist, bitsOf_eq]
      exact List.mem_map.mpr ⟨b, List.mem_range.mpr hb, rfl⟩
    refine ⟨buildRow unflagged ms num pre sep post [2 ^ b],
      (hmem _).mpr ⟨[2 ^ b], hcs, rfl⟩, ?_, ?_⟩
    · obtain ⟨es, _, hmap, hparse, _⟩ := combi_analysis ms hcs
      show bitflag2int (bitflagTemplate ms.length [2 ^ b]) = 2 ^ b
      rw [hparse]
      simp
    · show ((bits_flags unflagged ms).lookup (([(2:Nat) ^ b]).headD 0)).getD "" =
        ms.getD b ""
      rw [List.headD_cons, bits_flags_lookup unflagged ms b hb,
        List.getD_eq_getElem?_getD]
  · intro r hr
    obtain ⟨c, hc, rfl⟩ := (hmem r).mp hr
    obtain ⟨es, _, rfl, hparse, hfold⟩ := combi_analysis ms hc
    show bitflag2int (bitflagTemplate ms.length (es.map fun e => 2 ^ e)) =
      (es.map fun e => 2 ^ e).foldr (fun a acc => a ||| acc) 0
    rw [hparse, hfold]

/-- Witness for C2 on a concrete three-bit catalog. -/
theorem flag_table_closure_witness :
    (BitFlagShuffler_build "good" ["frozen", "dense", "other"] true
        "combination_of_flag_values_" "_and_" "").length = 2 ^ 3 ∧
    (∃ r ∈ BitFlagShuffler_build "good" ["frozen", "dense", "other"] true
        "combination_of_flag_values_" "_and_" "",
      r.intflag = 2 ^ 1 ∧
        r.meaning = (["frozen", "dense", "other"] : List String).getD 1 "") :=
  ⟨(flag_table_closure "good" "frozen" ["dense", "other"] true
      "combination_of_flag_values_" "_and_" "").1,
   (flag_table_closure "good" "frozen" ["dense", "other"] true
      "combination_of_flag_values_" "_and_" "").2.2.2.1 1 (by norm_num)⟩

/-- Claim C3 (refuted by the code): reading a variable with the explicit
user fill policy `fillval = dict sm: NaN` leaves the masked source pixel at
the declared file sentinel (-9999) instead of NaN, because the membership
test of `__read_flat_img` compares the netCDF variable object (not the
parameter name) with the string keys of the fill-value dictionary; the
same call with no fill policy (`fillval = None`) also retains the sentinel,
which is the behaviour the claim expects only for the no-policy case. -/
theorem user_fillval_not_applied :
    c3s_read_var (initFillval ["sm"] (.dict [("sm", some Val.nan)]))
        ⟨"sm", Val.num (-9999), [[⟨true, Val.num 0⟩, ⟨false, Val.num 37⟩]]⟩ =
      [Val.num (-9999), Val.num 37] ∧
    c3s_read_var (initFillval ["sm"] (.scalar none))
        ⟨"sm", Val.num (-9999), [[⟨true, Val.num 0⟩, ⟨false, Val.num 37⟩]]⟩ =
      [Val.num (-9999), Val.num 37] ∧
    Val.num (-9999) ≠ Val.nan := by
  refine ⟨by decide, by decide, by decide⟩

/-- Amended claim C7: reading an image file whose declared time coordinate
holds zero or more than one timestamp fails, with the `AssertionError` of
`assert len(timestamp) == 1` (the specification names a
`MalformedImageError`, which is defined nowhere in the repository); the
error is not caught by the `except IOError` handler of `C3SImg.read`. -/
theorem malformed_time_axis_fails (f : NcFile) (parameters : List String)
    (fvd : List (String × Option Val)) (shape : Nat × Nat)
    (h : f.timestamps.length ≠ 1) :
    c3simg_read (some f) parameters fvd shape = .error .assertionError := by
  obtain ⟨ts, vars⟩ := f
  cases ts with
  | nil => rfl
  | cons t rest =>
    cases rest with
    | nil => simp at h
    | cons t2 rest2 => rfl

/-- Witness for the amended C7 at a file declaring no timestamp. -/
theorem malformed_time_axis_fails_witness :
    c3simg_read (some ⟨[], [⟨"sm", Val.num (-9999), []⟩]⟩) ["sm"] [] (2, 2) =
      .error .assertionError :=
  malformed_time_axis_fails ⟨[], [⟨"sm", Val.num (-9999), []⟩]⟩ ["sm"] [] (2, 2)
    (by decide)

/-- Counterexample to C7 as stated: at a file declaring two timestamps the
raised error is the `AssertionError` of the source assert, and no
`MalformedImageError` class exists in the program. -/
theorem malformed_time_axis_error_kind :
    c3simg_read (some ⟨[⟨2020, 1, 1⟩, ⟨2020, 1, 2⟩], [⟨"sm", Val.num 0, []⟩]⟩)
        ["sm"] [] (1, 1) = .error .assertionError ∧
    PyError.assertionError ≠ PyError.malformedImageError := by
  refine ⟨rfl, by decide⟩

/-- Counterexample to C6 as stated: when the filename search returns no
candidate, the stack read raises the `IOError` of `_build_filename`
(`No file found for ...`) instead of returning a synthesized empty image. -/
theorem stack_read_no_file_raises :
    stack_read [] "sort_last" "2020-01-01 000000" [] ["sm"]
        [("sm", some Val.nan)] (1, 1) = .error .ioError := rfl

/-- Amended claim C6: the missing-file tolerance lives one layer lower: when
the search resolves a filename unambiguously but the file cannot be opened
(`netCDF4.Dataset` raises `IOError`), the stack read returns the synthesized
empty image of `__read_empty_flat_image` (every requested variable filled
with its per-variable fill value, metadata `image_missing = 1`) instead of
propagating the failure; when the search finds nothing at all, the
`IOError` of `_build_filename` propagates. -/
theorem stack_read_unreadable_file_empty_image (fs : List (String × NcFile))
    (fn : String) (hfs : fs.lookup fn = none) (policy tsStr : String)
    (parameters : List String) (fvd : List (String × Option Val))
    (shape : Nat × Nat) :
    stack_read fs policy tsStr [fn] parameters fvd shape =
      .ok ⟨read_empty_flat_image parameters fvd shape, 1⟩ := by
  have hb : build_filename policy tsStr [fn] = .ok (fn, []) := rfl
  unfold stack_read
  rw [hb]
  show c3simg_read (fs.lookup fn) parameters fvd shape = _
  rw [hfs]
  rfl

/-- Witness for the amended C6: a file system without the resolved file
yields the synthesized empty image with the per-variable fill values. -/
theorem stack_read_unreadable_file_empty_image_witness :
    stack_read [("other.nc", ⟨[⟨2020, 1, 1⟩], []⟩)] "sort_last" "ts"
        ["missing.nc"] ["sm"] [("sm", some Val.nan)] (1, 2) =
      .ok ⟨[("sm", [Val.nan, Val.nan])], 1⟩ ∧
    read_empty_flat_image ["sm"] [("sm", some Val.nan)] (1, 2) =
      [("sm", [Val.nan, Val.nan])] := by
  refine ⟨?_, by decide⟩
  have h := stack_read_unreadable_file_empty_image
    [("other.nc", ⟨[⟨2020, 1, 1⟩], []⟩)] "missing.nc" (by decide) "sort_last"
    "ts" ["sm"] [("sm", some Val.nan)] (1, 2)
  rw [h]
  decide

/-- Amended claim C8: with metadata attribution enabled, an unsupported
product version makes `img2ts` fail in the version-keyed metadata class
lookup before any effect touches the output time series directory; the
raised exception is the `AttributeError` of
`getattr(metadata, f"C3S_SM_TS_Attrs_...")` (the specification names an
`UnknownVersionError`, which is defined nowhere in the repository). -/
theorem unknown_version_fails_before_output (a : Img2TsArgs)
    (h1 : a.imgPathIsParentOfTs = false)
    (h2 : (a.bboxGiven && a.cellsGiven) = false)
    (h3 : a.ignore_meta = false)
    (h4 : a.version ∉ metadataVersionClasses) :
    (img2ts_run a).2 = some .attributeError ∧
    ∀ e ∈ (img2ts_run a).1, e = .readImageArchive := by
  have h4' : metadataVersionClasses.contains a.version = false := by
    by_contra hcon
    rw [Bool.not_eq_false] at hcon
    exact h4 (List.mem_of_elem_eq_true hcon)
  obtain ⟨p1, p2, p3, p4, p5, v, p6, p7⟩ := a
  simp only at h1 h2 h3 h4'
  subst h1 h3
  cases p2 <;> cases p3 <;> cases p4 <;> simp_all [img2ts_run]

/-- Counterexample to C8 as stated: at version `v209901` the raised error is
an `AttributeError`, not an `UnknownVersionError` (no such class exists in
the program);  the trace shows no output-directory effect. -/
theorem unknown_version_error_kind :
    img2ts_run ⟨false, false, false, true, false, "v209901", false, false⟩ =
      ([TsEffect.readImageArchive], some PyError.attributeError) ∧
    PyError.attributeError ≠ PyError.unknownVersionError := by
  refine ⟨by decide, by decide⟩

/-- Witness for the amended C8. -/
theorem unknown_version_fails_before_output_witness :
    (img2ts_run ⟨false, false, false, false, false, "v300001", true, true⟩).2 =
      some PyError.attributeError ∧
    ∀ e ∈ (img2ts_run ⟨false, false, false, false, false, "v300001", true, true⟩).1,
      e = TsEffect.readImageArchive :=
  unknown_version_fails_before_output
    ⟨false, false, false, false, false, "v300001", true, true⟩
    rfl rfl rfl (by decide)

/-- Claim C10: when `overwrite` is set and the output directory exists, the
whole directory tree is deleted (`shutil.rmtree`) before the conversion
effect runs, and the run completes without error; with `overwrite` unset no
deletion happens and the conversion (which appends to whatever files are in
place) still runs. -/
theorem overwrite_deletes_before_conversion (a : Img2TsArgs)
    (h1 : a.imgPathIsParentOfTs = false)
    (h2 : (a.bboxGiven && a.cellsGiven) = false)
    (h3 : a.ignore_meta = true ∨ a.version ∈ metadataVersionClasses) :
    (a.overwrite = true → a.tsPathExists = true →
      (img2ts_run a).2 = none ∧
      TsEffect.deleteTsDir ∈ (img2ts_run a).1 ∧
      List.indexOf TsEffect.deleteTsDir (img2ts_run a).1 <
        List.indexOf TsEffect.convertAndFlush (img2ts_run a).1 ∧
      TsEffect.convertAndFlush ∈ (img2ts_run a).1) ∧
    (a.overwrite = false →
      (img2ts_run a).2 = none ∧
      TsEffect.deleteTsDir ∉ (img2ts_run a).1 ∧
      TsEffect.convertAndFlush ∈ (img2ts_run a).1) := by
  obtain ⟨p1, p2, p3, p4, p5, v, p6, p7⟩ := a
  simp only at h1 h2 h3 ⊢
  subst h1
  cases p2 <;> cases p3 <;> cases p5 <;> cases p4 <;> cases p6 <;> cases p7 <;>
    simp_all [img2ts_run]

/-- Witness for C10 in both the overwrite and the append configuration. -/
theorem overwrite_deletes_before_conversion_witness :
    ((true = true → true = true →
      (img2ts_run ⟨false, false, false, true, false, "v201706", true, true⟩).2 = none ∧
      TsEffect.deleteTsDir ∈
        (img2ts_run ⟨false, false, false, true, false, "v201706", true, true⟩).1 ∧
      List.indexOf TsEffect.deleteTsDir
          (img2ts_run ⟨false, false, false, true, false, "v201706", true, true⟩).1 <
        List.indexOf TsEffect.convertAndFlush
          (img2ts_run ⟨false, false, false, true, false, "v201706", true, true⟩).1 ∧
      TsEffect.convertAndFlush ∈
        (img2ts_run ⟨false, false, false, true, false, "v201706", true, true⟩).1) ∧
    (true = false →
      (img2ts_run ⟨false, false, false, true, false, "v201706", true, true⟩).2 = none ∧
      TsEffect.deleteTsDir ∉
        (img2ts_run ⟨false, false, false, true, false, "v201706", true, true⟩).1 ∧
      TsEffect.convertAndFlush ∈
        (img2ts_run ⟨false, false, false, true, false, "v201706", true, true⟩).1)) :=
  overwrite_deletes_before_conversion
    ⟨false, false, false, true, false, "v201706", true, true⟩
    rfl rfl (Or.inr (by decide))

/-- Claim C9 (refuted by the code): `cli_reshuffle` resolves an omitted end
date by searching the OUTPUT time series directory (`ts_path`) for image
files (cli.py line 299) instead of the image archive.  With two images in
the archive and a fresh (empty) output directory, the resolution raises
`ValueError` (`Could not infer end date from image files.`) although the
image archive itself yields the end date 20200102000000, as the claim
expects; the start date resolution correctly searches the image archive. -/
theorem cli_reshuffle_enddate_searches_ts_path :
    cli_reshuffle_resolve_dates parseDatetimeC3S
        ["C3S-SOILMOISTURE-L3S-SSMV-COMBINED-DAILY-20200101000000-TCDR-v201912.0.0.nc",
         "C3S-SOILMOISTURE-L3S-SSMV-COMBINED-DAILY-20200102000000-TCDR-v201912.0.0.nc"]
        [] none none = .error .valueError ∧
    get_last_image_date parseDatetimeC3S
        ["C3S-SOILMOISTURE-L3S-SSMV-COMBINED-DAILY-20200101000000-TCDR-v201912.0.0.nc",
         "C3S-SOILMOISTURE-L3S-SSMV-COMBINED-DAILY-20200102000000-TCDR-v201912.0.0.nc"] =
      .ok "20200102000000" ∧
    get_first_image_date parseDatetimeC3S
        ["C3S-SOILMOISTURE-L3S-SSMV-COMBINED-DAILY-20200101000000-TCDR-v201912.0.0.nc",
         "C3S-SOILMOISTURE-L3S-SSMV-COMBINED-DAILY-20200102000000-TCDR-v201912.0.0.nc"] =
      .ok "20200101000000" := by
  refine ⟨by decide, by decide, by decide⟩

/-! Helper lemmas about warning-message containment for the ambiguity
policies. -/

theorem infix_pyJoin (sep : String) {x : String} {l : List String} (hx : x ∈ l) :
    x.data <:+: (pyJoin sep l).data := by
  induction l with
  | nil => simp at hx
  | cons y ys ih =>
    cases ys with
    | nil =>
      rw [List.mem_singleton] at hx
      subst hx
      exact List.infix_refl _
    | cons z zs =>
      rcases List.mem_cons.mp hx with rfl | hx2
      · show x.data <:+: (x ++ sep ++ pyJoin sep (z :: zs)).data
        refine List.IsPrefix.isInfix ?_
        rw [String.data_append, String.data_append, List.append_assoc]
        exact List.prefix_append _ _
      · refine List.IsInfix.trans (ih hx2) ?_
        show (pyJoin sep (z :: zs)).data <:+: (y ++ sep ++ pyJoin sep (z :: zs)).data
        rw [String.data_append]
        exact (List.suffix_append _ _).isInfix

theorem infix_pyQuote (x : String) : x.data <:+: (pyQuote x).data := by
  unfold pyQuote
  rw [String.data_append, String.data_append]
  exact ⟨(String.singleton pyQuoteChar).data, (String.singleton pyQuoteChar).data, rfl⟩

theorem infix_pyReprStrList {x : String} {l : List String} (hx : x ∈ l) :
    x.data <:+: (pyReprStrList l).data := by
  have h1 := (infix_pyQuote x).trans
    (infix_pyJoin ", " (List.mem_map_of_mem pyQuote hx))
  refine h1.trans ?_
  unfold pyReprStrList
  rw [String.data_append, String.data_append]
  exact ⟨("[" : String).data, ("]" : String).data, rfl⟩

theorem pairwise_strLt_getLast_max {l : List String} (hne : l ≠ [])
    (hp : l.Pairwise strLt) :
    ∀ x ∈ l, x = l.getLast hne ∨ strLt x (l.getLast hne) := by
  intro x hx
  have e := List.dropLast_append_getLast hne
  rw [← e] at hp hx
  rw [List.pairwise_append] at hp
  rcases List.mem_append.mp hx with h | h
  · exact Or.inr (hp.2.2 x h _ (List.mem_singleton_self _))
  · rw [List.mem_singleton] at h
    exact Or.inl h

/-- Amended claim C4: on an ambiguous (sorted) search result of at least two
files, policy `sort_last` selects the lexicographically greatest filename
and emits exactly one warning whose message names every skipped file;
policy `sort_first` selects the lexicographically first filename and emits
exactly one warning, but its message names only the chosen file (the claim
expects the skipped files to be named there as well, which the code does
not do); any other policy raises an `IOError`. -/
theorem build_filename_ambiguity (policy tsStr f g : String)
    (rest : List String) (hsorted : (f :: g :: rest).Pairwise strLt) :
    (policy = "sort_last" →
      ∃ w : String,
        build_filename policy tsStr (f :: g :: rest) =
          .ok ((f :: g :: rest).getLast (by simp), [w]) ∧
        (∀ x ∈ f :: g :: rest,
          x = (f :: g :: rest).getLast (by simp) ∨
            strLt x ((f :: g :: rest).getLast (by simp))) ∧
        (∀ x ∈ (f :: g :: rest).dropLast, x.data <:+: w.data)) ∧
    (policy = "sort_first" →
      ∃ w : String,
        build_filename policy tsStr (f :: g :: rest) = .ok (f, [w]) ∧
        (∀ x ∈ g :: rest, strLt f x) ∧
        f.data <:+: w.data) ∧
    (policy ≠ "sort_last" → policy ≠ "sort_first" →
      build_filename policy tsStr (f :: g :: rest) = .error .ioError) := by
  refine ⟨?_, ?_, ?_⟩
  · rintro rfl
    refine ⟨_, rfl, pairwise_strLt_getLast_max (by simp) hsorted, ?_⟩
    intro x hx
    refine (infix_pyReprStrList hx).trans ?_
    rw [String.data_append]
    exact (List.suffix_append _ _).isInfix
  · rintro rfl
    rw [List.pairwise_cons] at hsorted
    refine ⟨_, rfl, fun x hx => hsorted.1 x hx, ?_⟩
    show f.data <:+:
      ("Ambiguous file for " ++ tsStr ++ " found. Sort and use first: " ++ f).data
    rw [String.data_append]
    exact (List.suffix_append _ _).isInfix
  · intro h1 h2
    simp only [build_filename]
    rw [if_neg h1, if_neg h2]

/-- Witness for the amended C4, policy `sort_last` on two files. -/
theorem build_filename_ambiguity_witness :
    ∃ w : String,
      build_filename "sort_last" "t" ["a.nc", "b.nc"] =
        .ok ((["a.nc", "b.nc"] : List String).getLast (by simp), [w]) ∧
      (∀ x ∈ (["a.nc", "b.nc"] : List String),
        x = (["a.nc", "b.nc"] : List String).getLast (by simp) ∨
          strLt x ((["a.nc", "b.nc"] : List String).getLast (by simp))) ∧
      (∀ x ∈ (["a.nc", "b.nc"] : List String).dropLast, x.data <:+: w.data) :=
  (build_filename_ambiguity "sort_last" "t" "a.nc" "b.nc" [] (by decide)).1 rfl

set_option maxRecDepth 8192 in
/-- Counterexample to C4 as stated: the `sort_first` warning message does
not name the skipped file. -/
theorem sort_first_warning_names_no_skipped :
    build_filename "sort_first" "2020-01-01 000000" ["a.nc", "b.nc"] =
      .ok ("a.nc",
        ["Ambiguous file for 2020-01-01 000000 found. Sort and use first: a.nc"]) ∧
    ¬ (("b.nc" : String).data <:+:
        ("Ambiguous file for 2020-01-01 000000 found. Sort and use first: a.nc" :
          String).data) := by
  refine ⟨by decide, by decide⟩
